import Mathlib

/-!
Shallow embedding of the grpcprom instrumentation core: the metric set
builder, the method registry and call correlator, and the lifecycle
handler. Definitions are translated from the Go source (handler, options,
observer strategies); metric vectors are modelled as partial maps from
label tuples to values, where a present entry is a created series.
Prometheus counter/gauge/histogram values are modelled as rationals;
a histogram or sum+count observer is modelled by its per-tuple
(observation count, sum) pair, which both strategies maintain identically.
-/

namespace Grpcprom

/-- Frame label constant from the source: `header = "Header"`. -/
def header : String := "Header"

/-- Frame label constant from the source: `payload = "Payload"`. -/
def payload : String := "Payload"

/-- Frame label constant from the source: `trailer = "Trailer"`. -/
def trailer : String := "Trailer"

/-- Call-type constant from the source: `unknown = "Unknown"`. -/
def unknown : String := "Unknown"

/-- Call-type constant from the source: `unary = "Unary"`. -/
def unary : String := "Unary"

/-- Call-type constant from the source: `clientStream = "ClientStream"`. -/
def clientStream : String := "ClientStream"

/-- Call-type constant from the source: `serverStream = "ServerStream"`. -/
def serverStream : String := "ServerStream"

/-- Call-type constant from the source: `bidiStream = "BidiStream"`. -/
def bidiStream : String := "BidiStream"

/-- `grpcType` from the source: computes the call-type label from the
client/server streaming flags. -/
def grpcType (isClientStream isServerStream : Bool) : String :=
  if isServerStream then
    if isClientStream then bidiStream else serverStream
  else
    if isClientStream then clientStream else unary

/-- `strings.TrimPrefix(s, "/")` specialised to the one-character
separator: drops a single leading slash if present. -/
def dropLeadingSlash : List Char → List Char
  | '/' :: rest => rest
  | cs => cs

/-- `strings.Index(s, "/")`: index of the first slash, if any. -/
def indexOfSlash : List Char → Option Nat
  | [] => none
  | c :: cs => if c = '/' then some 0 else (indexOfSlash cs).map (· + 1)

/-- Character-level core of `splitFullMethodName` from the source:
trim one leading slash, split at the next slash, or yield the
placeholder pair when there is none. -/
def splitFullMethodNameChars (cs : List Char) : List Char × List Char :=
  let t := dropLeadingSlash cs
  match indexOfSlash t with
  | none => (unknown.data, unknown.data)
  | some i => (t.take i, t.drop (i + 1))

/-- `splitFullMethodName` from the source, on strings. -/
def splitFullMethodName (s : String) : String × String :=
  let p := splitFullMethodNameChars s.data
  (String.mk p.1, String.mk p.2)

/-- Label tuple (grpc_type, grpc_service, grpc_method). -/
abbrev Labels3 := String × String × String

/-- Label tuple (grpc_type, grpc_service, grpc_method, grpc_code) or
(grpc_type, grpc_service, grpc_method, grpc_frame). -/
abbrev Labels4 := String × String × String × String

/-- Point update of a partial map. -/
def updateFn {L V : Type} [DecidableEq L] (m : L → Option V) (k : L) (v : V) :
    L → Option V :=
  fun x => if x = k then some v else m x

/-- `GetMetricWithLabelValues`: creates the child series with the zero
value `z` if absent, leaves it untouched otherwise. -/
def getOrInit {L V : Type} [DecidableEq L] (z : V) (m : L → Option V) (k : L) :
    L → Option V :=
  updateFn m k ((m k).getD z)

/-- `WithLabelValues(...).Add(v)` (and `Inc`/`Dec` as `v = 1`/`v = -1`):
creates the series at zero if absent, then adds `v`. -/
def addAt {L : Type} [DecidableEq L] (m : L → Option Rat) (k : L) (v : Rat) :
    L → Option Rat :=
  updateFn m k ((m k).getD 0 + v)

/-- Observer `Observe(v, lvs...)`: both the histogram strategy and the
sum+count strategy add one to the observation count and `v` to the sum
of the addressed series, creating it at zero if absent. -/
def observeAt {L : Type} [DecidableEq L] (m : L → Option (Rat × Rat)) (k : L)
    (v : Rat) : L → Option (Rat × Rat) :=
  updateFn m k (((m k).getD (0, 0)).1 + 1, ((m k).getD (0, 0)).2 + v)

/-- `methodInfo` struct from the source. -/
structure methodInfo where
  typ : String
  server : String
  method : String
deriving DecidableEq

/-- `rpcInfo` struct from the source: the per-call record attached to the
call's context. It embeds `methodInfo` (field `info` here) and carries the
begin time (Go zero `time.Time` modelled as `0`). -/
structure rpcInfo where
  info : methodInfo
  beginTime : Rat
deriving DecidableEq

/-- The `methods sync.Map` of the handler: full method name to cached
`methodInfo`. -/
abbrev MethodMap := String → Option methodInfo

/-- `handler.methodInfo` from the source, acting on the registry map:
return the cached entry on a hit; on a miss split the full name, build an
entry with the fallback type, and cache it only when the fallback type is
concrete (not `unknown`). Returns the resolved info and the new map. -/
def resolveMethodInfo (m : MethodMap) (method typ : String) :
    methodInfo × MethodMap :=
  match m method with
  | some info => (info, m)
  | none =>
    let sm := splitFullMethodName method
    let info : methodInfo := { typ := typ, server := sm.1, method := sm.2 }
    if typ ≠ unknown then (info, updateFn m method info) else (info, m)

/-- `grpc.MethodInfo`: method descriptor used by eager registration. -/
structure GoMethodInfo where
  name : String
  isClientStream : Bool
  isServerStream : Bool
deriving DecidableEq

/-- Mutable state of a `handler`: the method registry and the metric
maps of its seven metrics (conns scalar values; vectors as partial maps,
observers as (count, sum) pairs per series). This models the default
construction, in which every metric is enabled. -/
structure HandlerState where
  methods : MethodMap
  connsOpen : Rat
  connsTotal : Rat
  reqsPending : Labels3 → Option Rat
  reqsTotal : Labels4 → Option Rat
  latency : Labels4 → Option (Rat × Rat)
  sentBytes : Labels4 → Option (Rat × Rat)
  recvBytes : Labels4 → Option (Rat × Rat)

/-- A handler with an empty registry and no created series. -/
def emptyHandler : HandlerState where
  methods := fun _ => none
  connsOpen := 0
  connsTotal := 0
  reqsPending := fun _ => none
  reqsTotal := fun _ => none
  latency := fun _ => none
  sentBytes := fun _ => none
  recvBytes := fun _ => none

/-- `handler.methodInfo` lifted to the handler state. -/
def HandlerState.methodInfoFn (h : HandlerState) (method typ : String) :
    methodInfo × HandlerState :=
  let r := resolveMethodInfo h.methods method typ
  (r.1, { h with methods := r.2 })

/-- `handler.TagRPC` from the source: the context is modelled by the
optional `rpcInfo` stored under the handler's private key. If the context
already carries a record it is returned unchanged; otherwise a fresh
record is attached, resolved with the `unknown` fallback type. -/
def HandlerState.tagRPC (h : HandlerState) (ctx : Option rpcInfo)
    (fullMethodName : String) : Option rpcInfo × HandlerState :=
  match ctx with
  | some v => (some v, h)
  | none =>
    let r := h.methodInfoFn fullMethodName unknown
    (some { info := r.1, beginTime := 0 }, r.2)

/-- `handler.context` from the source: resolve the method info with the
given type, then either mutate the existing record's `methodInfo` field in
place or attach a fresh record. -/
def HandlerState.contextTag (h : HandlerState) (ctx : Option rpcInfo)
    (method typ : String) : Option rpcInfo × HandlerState :=
  let r := h.methodInfoFn method typ
  match ctx with
  | some v => (some { v with info := r.1 }, r.2)
  | none => (some { info := r.1, beginTime := 0 }, r.2)

/-- The context-tagging step of `handler.streamClientInterceptor`: tag the
context with the call type computed by `grpcType` from the stream
descriptor's flags (invoking the wrapped streamer is external). -/
def streamClientInterceptorTag (h : HandlerState) (ctx : Option rpcInfo)
    (clientStreams serverStreams : Bool) (method : String) :
    Option rpcInfo × HandlerState :=
  h.contextTag ctx method (grpcType clientStreams serverStreams)

/-- The context-tagging step of `handler.streamServerInterceptor`. -/
def streamServerInterceptorTag (h : HandlerState) (ctx : Option rpcInfo)
    (isClientStream isServerStream : Bool) (fullMethod : String) :
    Option rpcInfo × HandlerState :=
  h.contextTag ctx fullMethod (grpcType isClientStream isServerStream)

/-- The context-tagging step of the unary interceptors: the call type is
`unary`. -/
def unaryInterceptorTag (h : HandlerState) (ctx : Option rpcInfo)
    (method : String) : Option rpcInfo × HandlerState :=
  h.contextTag ctx method unary

/-- `stats.RPCStats` events dispatched by `handler.HandleRPC`. The end
event carries `status.Code(s.Error).String()` directly as the code label;
outbound header/trailer events carry no usable wire length and the source
observes `0` for them. -/
inductive RPCStats where
  | begin (beginTime : Rat)
  | endStat (code : String)
  | inHeader (wireLength : Rat)
  | inPayload (wireLength : Rat)
  | inTrailer (wireLength : Rat)
  | outHeader
  | outPayload (wireLength : Rat)
  | outTrailer
deriving DecidableEq

/-- `handler.HandleRPC` from the source: if the context carries no record
the event is dropped; otherwise the event updates the metric maps using
the record's labels, and the begin event stores the begin time in the
record. `now` models the wall clock read by `time.Since`. -/
def HandlerState.handleRPC (h : HandlerState) (ctx : Option rpcInfo)
    (now : Rat) (stat : RPCStats) : HandlerState × Option rpcInfo :=
  match ctx with
  | none => (h, none)
  | some v =>
    let l3 : Labels3 := (v.info.typ, v.info.server, v.info.method)
    match stat with
    | .begin t =>
        ({ h with reqsPending := addAt h.reqsPending l3 1 },
         some { v with beginTime := t })
    | .endStat code =>
        ({ h with
            latency := observeAt h.latency (l3.1, l3.2.1, l3.2.2, code) (now - v.beginTime),
            reqsTotal := addAt h.reqsTotal (l3.1, l3.2.1, l3.2.2, code) 1,
            reqsPending := addAt h.reqsPending l3 (-1) },
         some v)
    | .inHeader n =>
        ({ h with recvBytes := observeAt h.recvBytes (l3.1, l3.2.1, l3.2.2, header) n }, some v)
    | .inPayload n =>
        ({ h with recvBytes := observeAt h.recvBytes (l3.1, l3.2.1, l3.2.2, payload) n }, some v)
    | .inTrailer n =>
        ({ h with recvBytes := observeAt h.recvBytes (l3.1, l3.2.1, l3.2.2, trailer) n }, some v)
    | .outHeader =>
        ({ h with sentBytes := observeAt h.sentBytes (l3.1, l3.2.1, l3.2.2, header) 0 }, some v)
    | .outPayload n =>
        ({ h with sentBytes := observeAt h.sentBytes (l3.1, l3.2.1, l3.2.2, payload) n }, some v)
    | .outTrailer =>
        ({ h with sentBytes := observeAt h.sentBytes (l3.1, l3.2.1, l3.2.2, trailer) 0 }, some v)

/-- The frame-kind array iterated by `handler.init`. -/
def frames : List String := [header, payload, trailer]

/-- The per-code loop body of `handler.init`: pre-create the
total-requests series and the latency series for every listed code. -/
def initCodes (t s m : String) (codes : List String) (h : HandlerState) :
    HandlerState :=
  codes.foldl (fun hh code =>
    { hh with
        reqsTotal := getOrInit 0 hh.reqsTotal (t, s, m, code),
        latency := getOrInit (0, 0) hh.latency (t, s, m, code) }) h

/-- The per-frame loop body of `handler.init`: pre-create the sent-bytes
and recv-bytes series for every listed frame kind. -/
def initFrames (t s m : String) (fs : List String) (h : HandlerState) :
    HandlerState :=
  fs.foldl (fun hh f =>
    { hh with
        sentBytes := getOrInit (0, 0) hh.sentBytes (t, s, m, f),
        recvBytes := getOrInit (0, 0) hh.recvBytes (t, s, m, f) }) h

/-- The body of `handler.init` for one method: compute the call type from
the stream flags, store the `methodInfo` under the full method name, and
pre-create the pending series and the per-code and per-frame series. -/
def initMethod (h : HandlerState) (server : String) (meth : GoMethodInfo)
    (codes : List String) : HandlerState :=
  let typ := grpcType meth.isClientStream meth.isServerStream
  let key := "/" ++ server ++ "/" ++ meth.name
  let info : methodInfo := { typ := typ, server := server, method := meth.name }
  let h1 := { h with methods := updateFn h.methods key info }
  let h2 := { h1 with reqsPending := getOrInit 0 h1.reqsPending (typ, server, meth.name) }
  initFrames typ server meth.name frames (initCodes typ server meth.name codes h2)

/-- `handler.init` from the source: warm-up registration of a service's
methods with a set of outcome codes (codes modelled by their string
labels, i.e. the image of `codes.Code.String()`). -/
def HandlerState.init (h : HandlerState) (server : String)
    (meths : List GoMethodInfo) (codes : List String) : HandlerState :=
  meths.foldl (fun hh m => initMethod hh server m codes) h

/-- `DefaultLatencyBuckets` from the source (float values as rationals). -/
def DefaultLatencyBuckets : List Rat :=
  [0.001, 0.0025, 0.005, 0.01, 0.025, 0.05, 0.1, 0.25, 0.5, 1, 2.5, 5, 10]

/-- `DefaultBytesBuckets` from the source. -/
def DefaultBytesBuckets : List Rat :=
  [0, 32, 64, 128, 256, 512, 1024, 2048, 8192, 32768, 131072, 524288]

/-- `metricOptions` from the source. -/
structure metricOptions where
  disable : Bool := false
deriving DecidableEq

/-- `histogramOptions` from the source (embedded `metricOptions`
flattened to the `disable` field; a Go nil bucket slice is `[]`). -/
structure histogramOptions where
  disable : Bool := false
  buckets : List Rat := []
deriving DecidableEq

/-- The `options` struct from the source. -/
structure optionsStruct where
  connsOpen : metricOptions := {}
  connsTotal : metricOptions := {}
  reqsPending : metricOptions := {}
  reqsTotal : metricOptions := {}
  latency : histogramOptions := {}
  recvBytes : histogramOptions := {}
  sentBytes : histogramOptions := {}
deriving DecidableEq

/-- The observer implementation selected by the builder: the no-op
variant, a bucketed histogram with the given buckets, or the sum+count
counter pair. -/
inductive ObserverImpl where
  | noop
  | histogram (buckets : List Rat)
  | sumCount
deriving DecidableEq

/-- `newLatency` from the source, reduced to its strategy selection
(metric names and help text elided): disabled yields the no-op, non-empty
buckets yield a histogram, otherwise the sum+count pair. -/
def newLatency (opts : histogramOptions) : ObserverImpl :=
  if opts.disable then .noop
  else if opts.buckets.length > 0 then .histogram opts.buckets
  else .sumCount

/-- `newSentBytes` from the source, reduced to its strategy selection. -/
def newSentBytes (opts : histogramOptions) : ObserverImpl :=
  if opts.disable then .noop
  else if opts.buckets.length > 0 then .histogram opts.buckets
  else .sumCount

/-- `newRecvBytes` from the source, reduced to its strategy selection. -/
def newRecvBytes (opts : histogramOptions) : ObserverImpl :=
  if opts.disable then .noop
  else if opts.buckets.length > 0 then .histogram opts.buckets
  else .sumCount

/-- The strategy/enablement outcome of `newMetrics`: which scalar and
vector metrics are enabled and which observer implementation each of the
three observers received. -/
structure MetricsSelect where
  connsOpenEnabled : Bool
  connsTotalEnabled : Bool
  reqsPendingEnabled : Bool
  reqsTotalEnabled : Bool
  latency : ObserverImpl
  sentBytes : ObserverImpl
  recvBytes : ObserverImpl
deriving DecidableEq

/-- `newMetrics` from the source: seed the options with
`DefaultLatencyBuckets` for the latency observer only, apply the given
option functions in order, then construct the seven metrics. An `Option`
value is modelled by its `applyOption` action on the options struct. -/
def newMetrics (opts : List (optionsStruct → optionsStruct)) : MetricsSelect :=
  let o := opts.foldl (fun o f => f o)
    { latency := { buckets := DefaultLatencyBuckets } }
  { connsOpenEnabled := !o.connsOpen.disable
    connsTotalEnabled := !o.connsTotal.disable
    reqsPendingEnabled := !o.reqsPending.disable
    reqsTotalEnabled := !o.reqsTotal.disable
    latency := newLatency o.latency
    sentBytes := newSentBytes o.sentBytes
    recvBytes := newRecvBytes o.recvBytes }

/-- The operations the source performs on the method registry: the lazy
resolution of `handler.methodInfo`, and the eager store of
`handler.init`. -/
inductive RegOp where
  | resolve (method typ : String)
  | store (server : String) (meth : GoMethodInfo)

/-- One registry operation applied to the method map. -/
def regStep (m : MethodMap) : RegOp → MethodMap
  | .resolve method typ => (resolveMethodInfo m method typ).2
  | .store server meth =>
      updateFn m ("/" ++ server ++ "/" ++ meth.name)
        { typ := grpcType meth.isClientStream meth.isServerStream,
          server := server, method := meth.name }

/-- Every cached registry entry has a concrete (non-`unknown`) call
type. -/
def ConcreteEntries (m : MethodMap) : Prop :=
  ∀ k info, m k = some info → info.typ ≠ unknown

/-- The state a single `handler.init` iteration leaves behind for one
method: its `methodInfo` is stored under the full method name and all of
its warm-up series exist. -/
def MethodReady (h : HandlerState) (server : String) (meth : GoMethodInfo)
    (codes : List String) : Prop :=
  let t := grpcType meth.isClientStream meth.isServerStream
  h.methods ("/" ++ server ++ "/" ++ meth.name) =
    some { typ := t, server := server, method := meth.name } ∧
  (h.reqsPending (t, server, meth.name)).isSome ∧
  (∀ c ∈ codes, (h.reqsTotal (t, server, meth.name, c)).isSome) ∧
  (∀ c ∈ codes, (h.latency (t, server, meth.name, c)).isSome) ∧
  (∀ f ∈ frames, (h.sentBytes (t, server, meth.name, f)).isSome) ∧
  (∀ f ∈ frames, (h.recvBytes (t, server, meth.name, f)).isSome)

/-- Every series present in `h` is still present in `h'` with the same
value: warm-up never changes an existing series. -/
def SeriesPreserved (h h' : HandlerState) : Prop :=
  (∀ l v, h.reqsPending l = some v → h'.reqsPending l = some v) ∧
  (∀ l v, h.reqsTotal l = some v → h'.reqsTotal l = some v) ∧
  (∀ l v, h.latency l = some v → h'.latency l = some v) ∧
  (∀ l v, h.sentBytes l = some v → h'.sentBytes l = some v) ∧
  (∀ l v, h.recvBytes l = some v → h'.recvBytes l = some v)

/-- The empty method registry. -/
def emptyMethods : MethodMap := fun _ => none

/-- A sample per-call record used to instantiate universally quantified
theorems at concrete inputs. -/
def sampleRpc : rpcInfo where
  info := { typ := unknown, server := unknown, method := unknown }
  beginTime := 5

/-- A sample unary method descriptor used to instantiate universally
quantified theorems at concrete inputs. -/
def sampleMeth : GoMethodInfo where
  name := "M"
  isClientStream := false
  isServerStream := false

theorem updateFn_self {L V : Type} [DecidableEq L] (m : L → Option V) (k : L)
    (v : V) : updateFn m k v k = some v := by
  simp [updateFn]

theorem updateFn_other {L V : Type} [DecidableEq L] (m : L → Option V) (k x : L)
    (v : V) (hx : x ≠ k) : updateFn m k v x = m x := by
  simp [updateFn, hx]

theorem getOrInit_of_some {L V : Type} [DecidableEq L] (z : V)
    (m : L → Option V) (k l : L) (v : V) (hl : m l = some v) :
    getOrInit z m k l = some v := by
  by_cases hk : l = k
  · subst hk; simp [getOrInit, updateFn, hl]
  · simp [getOrInit, updateFn, hk, hl]

theorem getOrInit_eq_of_isSome {L V : Type} [DecidableEq L] (z : V)
    (m : L → Option V) (k : L) (hk : (m k).isSome) : getOrInit z m k = m := by
  funext x
  by_cases hx : x = k
  · subst hx
    obtain ⟨v, hv⟩ := Option.isSome_iff_exists.mp hk
    simp [getOrInit, updateFn, hv]
  · simp [getOrInit, updateFn, hx]

theorem grpcType_ne_unknown (cs ss : Bool) : grpcType cs ss ≠ unknown := by
  cases cs <;> cases ss <;> decide

/-- C7: a call-lifecycle event whose context carries no correlated call
record leaves every metric map and the method registry untouched and
raises nothing: the event is silently dropped. -/
theorem claim7_missing_record_noop (h : HandlerState) (now : Rat)
    (stat : RPCStats) : h.handleRPC none now stat = (h, none) := rfl

/-- C2: observing a call at begin and then at end with outcome code
`code` records the start time at begin and increments the pending gauge
by one; at end it increments the total-requests counter for that code by
exactly one, adds one latency observation, and decrements the pending
gauge, returning it to its pre-call value. -/
theorem claim2_begin_end_balance (h : HandlerState) (v : rpcInfo)
    (t now1 now2 : Rat) (code : String) :
    let r1 := h.handleRPC (some v) now1 (RPCStats.begin t)
    let r2 := r1.1.handleRPC r1.2 now2 (RPCStats.endStat code)
    r1.2 = some { v with beginTime := t } ∧
    (r1.1.reqsPending (v.info.typ, v.info.server, v.info.method)).getD 0 =
      (h.reqsPending (v.info.typ, v.info.server, v.info.method)).getD 0 + 1 ∧
    (r2.1.reqsTotal (v.info.typ, v.info.server, v.info.method, code)).getD 0 =
      (h.reqsTotal (v.info.typ, v.info.server, v.info.method, code)).getD 0 + 1 ∧
    ((r2.1.latency (v.info.typ, v.info.server, v.info.method, code)).getD (0, 0)).1 =
      ((h.latency (v.info.typ, v.info.server, v.info.method, code)).getD (0, 0)).1 + 1 ∧
    (r2.1.reqsPending (v.info.typ, v.info.server, v.info.method)).getD 0 =
      (h.reqsPending (v.info.typ, v.info.server, v.info.method)).getD 0 := by
  refine ⟨rfl, ?_, ?_, ?_, ?_⟩
  · simp [HandlerState.handleRPC, addAt, updateFn]
  · simp [HandlerState.handleRPC, addAt, observeAt, updateFn]
  · simp [HandlerState.handleRPC, addAt, observeAt, updateFn]
  · simp [HandlerState.handleRPC, addAt, observeAt, updateFn]

theorem indexOfSlash_of_no_slash (cs : List Char) (h : '/' ∉ cs) :
    indexOfSlash cs = none := by
  induction cs with
  | nil => rfl
  | cons c cs ih =>
    simp only [List.mem_cons, not_or] at h
    rw [indexOfSlash, if_neg (fun hc => h.1 hc.symm), ih h.2]
    rfl

theorem indexOfSlash_append (pre post : List Char) (h : '/' ∉ pre) :
    indexOfSlash (pre ++ '/' :: post) = some pre.length := by
  induction pre with
  | nil => simp [indexOfSlash]
  | cons c cs ih =>
    simp only [List.mem_cons, not_or] at h
    rw [List.cons_append, indexOfSlash, if_neg (fun hc => h.1 hc.symm), ih h.2]
    rfl

theorem take_append_cons {α : Type} (pre post : List α) (a : α) :
    (pre ++ a :: post).take pre.length = pre := by
  induction pre with
  | nil => rfl
  | cons x xs ih => simp [List.take, ih]

theorem drop_append_cons {α : Type} (pre post : List α) (a : α) :
    (pre ++ a :: post).drop (pre.length + 1) = post := by
  induction pre with
  | nil => rfl
  | cons x xs ih => simp [List.drop, ih]

theorem string_data_append (a b : String) : (a ++ b).data = a.data ++ b.data :=
  rfl

theorem string_mk_data (s : String) : String.mk s.data = s := rfl

theorem full_name_data (service method : String) :
    ("/" ++ service ++ "/" ++ method).data =
      '/' :: (service.data ++ '/' :: method.data) := by
  simp [string_data_append]

theorem split_full_name (service method : String) (h : '/' ∉ service.data) :
    splitFullMethodName ("/" ++ service ++ "/" ++ method) = (service, method) := by
  simp only [splitFullMethodName, splitFullMethodNameChars, full_name_data,
    dropLeadingSlash, indexOfSlash_append _ _ h, take_append_cons,
    drop_append_cons, string_mk_data]

/-- C9: splitting a full method name strips one leading separator and
splits at the next separator: a registered-style name `/service/method`
whose service part contains no separator yields exactly
`(service, method)`; the concrete name from the spec splits as stated;
and a name with no separator after the optional leading one yields the
placeholder pair. The function is total, so no error is ever surfaced. -/
theorem claim9_split_full_method_name :
    (∀ service method : String, '/' ∉ service.data →
      splitFullMethodName ("/" ++ service ++ "/" ++ method) = (service, method)) ∧
    splitFullMethodName "/svc.Echo/Call" = ("svc.Echo", "Call") ∧
    (∀ s : String, '/' ∉ dropLeadingSlash s.data →
      splitFullMethodName s = ("Unknown", "Unknown")) := by
  refine ⟨split_full_name, by rfl, ?_⟩
  · intro s h
    simp only [splitFullMethodName, splitFullMethodNameChars,
      indexOfSlash_of_no_slash _ h]
    rfl

theorem claim9_split_full_method_name_witness :
    splitFullMethodName ("/" ++ "svc.Echo" ++ "/" ++ "Call") = ("svc.Echo", "Call") ∧
    splitFullMethodName "nosep" = ("Unknown", "Unknown") :=
  ⟨claim9_split_full_method_name.1 "svc.Echo" "Call" (by decide),
   claim9_split_full_method_name.2.2 "nosep" (by decide)⟩

theorem regStep_concrete (m : MethodMap) (op : RegOp) (hm : ConcreteEntries m) :
    ConcreteEntries (regStep m op) := by
  cases op with
  | resolve method typ =>
    intro k info hk
    simp only [regStep] at hk
    cases hmm : m method with
    | some i =>
      simp only [resolveMethodInfo, hmm] at hk
      exact hm k info hk
    | none =>
      simp only [resolveMethodInfo, hmm] at hk
      by_cases ht : typ = unknown
      · rw [if_neg (fun hne => hne ht)] at hk
        exact hm k info hk
      · rw [if_pos ht] at hk
        dsimp only at hk
        by_cases hkm : k = method
        · subst hkm
          rw [updateFn_self] at hk
          obtain rfl := Option.some.inj hk
          exact ht
        · rw [updateFn_other _ _ _ _ hkm] at hk
          exact hm k info hk
  | store server meth =>
    intro k info hk
    simp only [regStep] at hk
    by_cases hkm : k = "/" ++ server ++ "/" ++ meth.name
    · subst hkm
      rw [updateFn_self] at hk
      obtain rfl := Option.some.inj hk
      exact grpcType_ne_unknown _ _
    · rw [updateFn_other _ _ _ _ hkm] at hk
      exact hm k info hk

/-- C3: over any sequence of registry operations, every cached entry
keeps a concrete call type (so a concrete entry is never overwritten
with `Unknown`); a lazy resolution caches nothing when its fallback type
is `Unknown` and caches the parsed entry when the fallback is concrete;
and a cache hit returns the cached entry unchanged, whatever fallback
type is passed. -/
theorem claim3_registry_invariants :
    (∀ (ops : List RegOp) (m : MethodMap), ConcreteEntries m →
      ConcreteEntries (ops.foldl regStep m)) ∧
    (∀ (m : MethodMap) (meth typ : String), m meth = none → typ = unknown →
      (resolveMethodInfo m meth typ).2 = m) ∧
    (∀ (m : MethodMap) (meth typ : String), m meth = none → typ ≠ unknown →
      (resolveMethodInfo m meth typ).2 meth =
        some { typ := typ, server := (splitFullMethodName meth).1,
               method := (splitFullMethodName meth).2 }) ∧
    (∀ (m : MethodMap) (meth typ : String) (info : methodInfo),
      m meth = some info →
      (resolveMethodInfo m meth typ).1 = info ∧
        (resolveMethodInfo m meth typ).2 = m) := by
  refine ⟨?_, ?_, ?_, ?_⟩
  · intro ops
    induction ops with
    | nil => intro m hm; exact hm
    | cons op ops ih => intro m hm; exact ih _ (regStep_concrete m op hm)
  · intro m meth typ hm ht
    subst ht
    simp [resolveMethodInfo, hm]
  · intro m meth typ hm ht
    simp [resolveMethodInfo, hm, ht, updateFn]
  · intro m meth typ info hm
    simp [resolveMethodInfo, hm]

theorem claim3_registry_invariants_witness :
    ConcreteEntries (([RegOp.resolve "/a/b" unary,
      RegOp.store "svc" sampleMeth].foldl regStep) emptyMethods) ∧
    (resolveMethodInfo emptyMethods "/a/b" unknown).2 = emptyMethods ∧
    (resolveMethodInfo emptyMethods "/a/b" unary).2 "/a/b" =
      some { typ := unary, server := (splitFullMethodName "/a/b").1,
             method := (splitFullMethodName "/a/b").2 } ∧
    ((resolveMethodInfo (updateFn emptyMethods "/a/b" sampleRpc.info)
        "/a/b" unary).1 = sampleRpc.info ∧
      (resolveMethodInfo (updateFn emptyMethods "/a/b" sampleRpc.info)
        "/a/b" unary).2 = updateFn emptyMethods "/a/b" sampleRpc.info) :=
  ⟨claim3_registry_invariants.1 _ _ (fun _ _ hk => Option.noConfusion hk),
   claim3_registry_invariants.2.1 _ _ _ rfl rfl,
   claim3_registry_invariants.2.2.1 _ _ _ rfl (by decide),
   claim3_registry_invariants.2.2.2 _ _ _ _ (by decide)⟩

/-- C4: interception-path tagging of a context that already carries a
call record keeps the same single record and mutates only its
`methodInfo` field — the begin time is untouched and no second record is
attached; with a concrete call type and a registry whose entries are all
concrete, the resulting record's call type is concrete (an `Unknown`
record is upgraded); and lifecycle-hook tagging of an already-tagged
context returns context and state unchanged. -/
theorem claim4_context_retag_frame :
    (∀ (h : HandlerState) (v : rpcInfo) (method typ : String),
      (h.contextTag (some v) method typ).1 =
        some { v with info := (resolveMethodInfo h.methods method typ).1 }) ∧
    (∀ (h : HandlerState) (v : rpcInfo) (method typ : String),
      typ ≠ unknown → ConcreteEntries h.methods →
      ∃ v', (h.contextTag (some v) method typ).1 = some v' ∧
        v'.beginTime = v.beginTime ∧ v'.info.typ ≠ unknown) ∧
    (∀ (h : HandlerState) (v : rpcInfo) (name : String),
      h.tagRPC (some v) name = (some v, h)) := by
  refine ⟨fun h v method typ => rfl, ?_, fun h v name => rfl⟩
  intro h v method typ ht hc
  refine ⟨_, rfl, rfl, ?_⟩
  show (resolveMethodInfo h.methods method typ).1.typ ≠ unknown
  cases hmm : h.methods method with
  | some i =>
    have : (resolveMethodInfo h.methods method typ).1 = i := by
      simp [resolveMethodInfo, hmm]
    rw [this]
    exact hc _ _ hmm
  | none =>
    simp [resolveMethodInfo, hmm, ht]

theorem claim4_context_retag_frame_witness :
    ((emptyHandler.contextTag (some sampleRpc) "/a/b" unary).1 =
      some { sampleRpc with
        info := (resolveMethodInfo emptyHandler.methods "/a/b" unary).1 }) ∧
    (∃ v', (emptyHandler.contextTag (some sampleRpc) "/a/b" unary).1 = some v' ∧
      v'.beginTime = sampleRpc.beginTime ∧ v'.info.typ ≠ unknown) ∧
    emptyHandler.tagRPC (some sampleRpc) "/x" = (some sampleRpc, emptyHandler) :=
  ⟨claim4_context_retag_frame.1 emptyHandler sampleRpc "/a/b" unary,
   claim4_context_retag_frame.2.1 emptyHandler sampleRpc "/a/b" unary
     (by decide) (fun _ _ hk => Option.noConfusion hk),
   claim4_context_retag_frame.2.2 emptyHandler sampleRpc "/x"⟩

theorem initCodes_methods (t s m : String) :
    ∀ (codes : List String) (h : HandlerState),
    (initCodes t s m codes h).methods = h.methods := by
  intro codes
  induction codes with
  | nil => intro h; rfl
  | cons c cs ih => intro h; exact ih _

theorem initCodes_reqsPending (t s m : String) :
    ∀ (codes : List String) (h : HandlerState),
    (initCodes t s m codes h).reqsPending = h.reqsPending := by
  intro codes
  induction codes with
  | nil => intro h; rfl
  | cons c cs ih => intro h; exact ih _

theorem initCodes_sentBytes (t s m : String) :
    ∀ (codes : List String) (h : HandlerState),
    (initCodes t s m codes h).sentBytes = h.sentBytes := by
  intro codes
  induction codes with
  | nil => intro h; rfl
  | cons c cs ih => intro h; exact ih _

theorem initCodes_recvBytes (t s m : String) :
    ∀ (codes : List String) (h : HandlerState),
    (initCodes t s m codes h).recvBytes = h.recvBytes := by
  intro codes
  induction codes with
  | nil => intro h; rfl
  | cons c cs ih => intro h; exact ih _

theorem initCodes_reqsTotal_eq (t s m : String) :
    ∀ (codes : List String) (h : HandlerState),
    (initCodes t s m codes h).reqsTotal =
      codes.foldl (fun acc e => getOrInit 0 acc (t, s, m, e)) h.reqsTotal := by
  intro codes
  induction codes with
  | nil => intro h; rfl
  | cons c cs ih => intro h; exact ih _

theorem initCodes_latency_eq (t s m : String) :
    ∀ (codes : List String) (h : HandlerState),
    (initCodes t s m codes h).latency =
      codes.foldl (fun acc e => getOrInit (0, 0) acc (t, s, m, e)) h.latency := by
  intro codes
  induction codes with
  | nil => intro h; rfl
  | cons c cs ih => intro h; exact ih _

theorem initFrames_methods (t s m : String) :
    ∀ (fs : List String) (h : HandlerState),
    (initFrames t s m fs h).methods = h.methods := by
  intro fs
  induction fs with
  | nil => intro h; rfl
  | cons f fs ih => intro h; exact ih _

theorem initFrames_reqsPending (t s m : String) :
    ∀ (fs : List String) (h : HandlerState),
    (initFrames t s m fs h).reqsPending = h.reqsPending := by
  intro fs
  induction fs with
  | nil => intro h; rfl
  | cons f fs ih => intro h; exact ih _

theorem initFrames_reqsTotal (t s m : String) :
    ∀ (fs : List String) (h : HandlerState),
    (initFrames t s m fs h).reqsTotal = h.reqsTotal := by
  intro fs
  induction fs with
  | nil => intro h; rfl
  | cons f fs ih => intro h; exact ih _

theorem initFrames_latency (t s m : String) :
    ∀ (fs : List String) (h : HandlerState),
    (initFrames t s m fs h).latency = h.latency := by
  intro fs
  induction fs with
  | nil => intro h; rfl
  | cons f fs ih => intro h; exact ih _

theorem initFrames_sentBytes_eq (t s m : String) :
    ∀ (fs : List String) (h : HandlerState),
    (initFrames t s m fs h).sentBytes =
      fs.foldl (fun acc e => getOrInit (0, 0) acc (t, s, m, e)) h.sentBytes := by
  intro fs
  induction fs with
  | nil => intro h; rfl
  | cons f fs ih => intro h; exact ih _

theorem initFrames_recvBytes_eq (t s m : String) :
    ∀ (fs : List String) (h : HandlerState),
    (initFrames t s m fs h).recvBytes =
      fs.foldl (fun acc e => getOrInit (0, 0) acc (t, s, m, e)) h.recvBytes := by
  intro fs
  induction fs with
  | nil => intro h; rfl
  | cons f fs ih => intro h; exact ih _

theorem foldl_getOrInit_eval {V : Type} (z : V) (t s m : String) :
    ∀ (ks : List String) (mp : Labels4 → Option V) (a b c d : String),
      (ks.foldl (fun acc e => getOrInit z acc (t, s, m, e)) mp) (a, b, c, d) =
      if a = t ∧ b = s ∧ c = m ∧ d ∈ ks then some ((mp (a, b, c, d)).getD z)
      else mp (a, b, c, d) := by
  intro ks
  induction ks with
  | nil => intro mp a b c d; simp
  | cons e es ih =>
    intro mp a b c d
    rw [List.foldl_cons, ih]
    by_cases hkey : ((a : String), (b : String), (c : String), (d : String)) = (t, s, m, e)
    · have h4 : a = t ∧ b = s ∧ c = m ∧ d = e := by simpa [Prod.ext_iff] using hkey
      obtain ⟨rfl, rfl, rfl, rfl⟩ := h4
      by_cases hes : d ∈ es <;> simp [getOrInit, updateFn, hes]
    · have hgo : getOrInit z mp (t, s, m, e) (a, b, c, d) = mp (a, b, c, d) := by
        simp [getOrInit, updateFn, hkey]
      rw [hgo]
      by_cases hcond : a = t ∧ b = s ∧ c = m ∧ d ∈ es
      · obtain ⟨rfl, rfl, rfl, hd⟩ := hcond
        simp [hd]
      · have hcond2 : ¬(a = t ∧ b = s ∧ c = m ∧ d ∈ e :: es) := by
          rintro ⟨rfl, rfl, rfl, hd⟩
          rcases List.mem_cons.mp hd with rfl | hmem
          · exact hkey rfl
          · exact hcond ⟨rfl, rfl, rfl, hmem⟩
        rw [if_neg hcond, if_neg hcond2]

theorem initMethod_methods (h : HandlerState) (server : String)
    (meth : GoMethodInfo) (codes : List String) :
    (initMethod h server meth codes).methods =
      updateFn h.methods ("/" ++ server ++ "/" ++ meth.name)
        { typ := grpcType meth.isClientStream meth.isServerStream,
          server := server, method := meth.name } := by
  unfold initMethod
  rw [initFrames_methods, initCodes_methods]

theorem initMethod_reqsPending (h : HandlerState) (server : String)
    (meth : GoMethodInfo) (codes : List String) :
    (initMethod h server meth codes).reqsPending =
      getOrInit 0 h.reqsPending
        (grpcType meth.isClientStream meth.isServerStream, server, meth.name) := by
  unfold initMethod
  rw [initFrames_reqsPending, initCodes_reqsPending]

theorem initMethod_reqsTotal (h : HandlerState) (server : String)
    (meth : GoMethodInfo) (codes : List String) (a b c d : String) :
    (initMethod h server meth codes).reqsTotal (a, b, c, d) =
      if a = grpcType meth.isClientStream meth.isServerStream ∧ b = server ∧
          c = meth.name ∧ d ∈ codes then
        some ((h.reqsTotal (a, b, c, d)).getD 0)
      else h.reqsTotal (a, b, c, d) := by
  unfold initMethod
  rw [initFrames_reqsTotal, initCodes_reqsTotal_eq, foldl_getOrInit_eval]

theorem initMethod_latency (h : HandlerState) (server : String)
    (meth : GoMethodInfo) (codes : List String) (a b c d : String) :
    (initMethod h server meth codes).latency (a, b, c, d) =
      if a = grpcType meth.isClientStream meth.isServerStream ∧ b = server ∧
          c = meth.name ∧ d ∈ codes then
        some ((h.latency (a, b, c, d)).getD (0, 0))
      else h.latency (a, b, c, d) := by
  unfold initMethod
  rw [initFrames_latency, initCodes_latency_eq, foldl_getOrInit_eval]

theorem initMethod_sentBytes (h : HandlerState) (server : String)
    (meth : GoMethodInfo) (codes : List String) (a b c d : String) :
    (initMethod h server meth codes).sentBytes (a, b, c, d) =
      if a = grpcType meth.isClientStream meth.isServerStream ∧ b = server ∧
          c = meth.name ∧ d ∈ frames then
        some ((h.sentBytes (a, b, c, d)).getD (0, 0))
      else h.sentBytes (a, b, c, d) := by
  unfold initMethod
  rw [initFrames_sentBytes_eq, initCodes_sentBytes, foldl_getOrInit_eval]

theorem initMethod_recvBytes (h : HandlerState) (server : String)
    (meth : GoMethodInfo) (codes : List String) (a b c d : String) :
    (initMethod h server meth codes).recvBytes (a, b, c, d) =
      if a = grpcType meth.isClientStream meth.isServerStream ∧ b = server ∧
          c = meth.name ∧ d ∈ frames then
        some ((h.recvBytes (a, b, c, d)).getD (0, 0))
      else h.recvBytes (a, b, c, d) := by
  unfold initMethod
  rw [initFrames_recvBytes_eq, initCodes_recvBytes, foldl_getOrInit_eval]

theorem init_single (h : HandlerState) (server : String) (meth : GoMethodInfo)
    (codes : List String) :
    h.init server [meth] codes = initMethod h server meth codes := rfl

/-- C5: warm-up registration of one method with a set of outcome codes
stores its `methodInfo` under the full method name and, starting from a
handler with no series, creates exactly the claimed series, each at zero:
the pending series for its label triple; the total-requests and latency
series for each given code; and the sent-bytes and recv-bytes series for
each of the three frame kinds. -/
theorem claim5_warmup_series (server : String) (meth : GoMethodInfo)
    (codes : List String) :
    (emptyHandler.init server [meth] codes).methods
        ("/" ++ server ++ "/" ++ meth.name) =
      some { typ := grpcType meth.isClientStream meth.isServerStream,
             server := server, method := meth.name } ∧
    (∀ a b c, (emptyHandler.init server [meth] codes).reqsPending (a, b, c) =
      if a = grpcType meth.isClientStream meth.isServerStream ∧ b = server ∧
          c = meth.name then some 0 else none) ∧
    (∀ a b c d, (emptyHandler.init server [meth] codes).reqsTotal (a, b, c, d) =
      if a = grpcType meth.isClientStream meth.isServerStream ∧ b = server ∧
          c = meth.name ∧ d ∈ codes then some 0 else none) ∧
    (∀ a b c d, (emptyHandler.init server [meth] codes).latency (a, b, c, d) =
      if a = grpcType meth.isClientStream meth.isServerStream ∧ b = server ∧
          c = meth.name ∧ d ∈ codes then some (0, 0) else none) ∧
    (∀ a b c d, (emptyHandler.init server [meth] codes).sentBytes (a, b, c, d) =
      if a = grpcType meth.isClientStream meth.isServerStream ∧ b = server ∧
          c = meth.name ∧ d ∈ frames then some (0, 0) else none) ∧
    (∀ a b c d, (emptyHandler.init server [meth] codes).recvBytes (a, b, c, d) =
      if a = grpcType meth.isClientStream meth.isServerStream ∧ b = server ∧
          c = meth.name ∧ d ∈ frames then some (0, 0) else none) := by
  refine ⟨?_, ?_, ?_, ?_, ?_, ?_⟩
  · rw [init_single, initMethod_methods, updateFn_self]
  · intro a b c
    rw [init_single, initMethod_reqsPending]
    simp [getOrInit, updateFn, emptyHandler, Prod.ext_iff, and_assoc]
  · intro a b c d
    rw [init_single, initMethod_reqsTotal]
    simp [emptyHandler]
  · intro a b c d
    rw [init_single, initMethod_latency]
    simp [emptyHandler]
  · intro a b c d
    rw [init_single, initMethod_sentBytes]
    simp [emptyHandler]
  · intro a b c d
    rw [init_single, initMethod_recvBytes]
    simp [emptyHandler]

/-- C8: the call type computed from the streaming flag pair is exactly
the claimed table, and the stream-client interceptor's context tagging
records that call type in the call record — both on the lazy path for a
method not yet in the registry, and for a method that was eagerly
registered with the same streaming flags. -/
theorem claim8_grpc_type_table :
    (grpcType false false = unary ∧ grpcType true false = clientStream ∧
     grpcType false true = serverStream ∧ grpcType true true = bidiStream) ∧
    (∀ (h : HandlerState) (ctx : Option rpcInfo) (cs ss : Bool)
       (method : String), h.methods method = none →
      ∃ v', (streamClientInterceptorTag h ctx cs ss method).1 = some v' ∧
        v'.info.typ = grpcType cs ss) ∧
    (∀ (h : HandlerState) (ctx : Option rpcInfo) (server : String)
       (meth : GoMethodInfo) (codes : List String),
      ∃ v', (streamClientInterceptorTag (h.init server [meth] codes) ctx
          meth.isClientStream meth.isServerStream
          ("/" ++ server ++ "/" ++ meth.name)).1 = some v' ∧
        v'.info.typ = grpcType meth.isClientStream meth.isServerStream) := by
  refine ⟨⟨rfl, rfl, rfl, rfl⟩, ?_, ?_⟩
  · intro h ctx cs ss method hm
    have hr : (resolveMethodInfo h.methods method (grpcType cs ss)).1.typ =
        grpcType cs ss := by
      simp [resolveMethodInfo, hm, grpcType_ne_unknown cs ss]
    cases ctx with
    | none => exact ⟨_, rfl, hr⟩
    | some v => exact ⟨_, rfl, hr⟩
  · intro h ctx server meth codes
    have hm : (h.init server [meth] codes).methods
        ("/" ++ server ++ "/" ++ meth.name) =
        some { typ := grpcType meth.isClientStream meth.isServerStream,
               server := server, method := meth.name } := by
      rw [init_single, initMethod_methods, updateFn_self]
    have hr : (resolveMethodInfo (h.init server [meth] codes).methods
        ("/" ++ server ++ "/" ++ meth.name)
        (grpcType meth.isClientStream meth.isServerStream)).1.typ =
        grpcType meth.isClientStream meth.isServerStream := by
      simp [resolveMethodInfo, hm]
    cases ctx with
    | none => exact ⟨_, rfl, hr⟩
    | some v => exact ⟨_, rfl, hr⟩

theorem claim8_grpc_type_table_witness :
    ∃ v', (streamClientInterceptorTag emptyHandler none true false "/a/b").1 =
      some v' ∧ v'.info.typ = grpcType true false :=
  claim8_grpc_type_table.2.1 emptyHandler none true false "/a/b" rfl

/-- C10: warm-up registration stores the method entry under the key
formed as slash, service, slash, method; for a service name containing
no separator, splitting that same full name yields exactly the pair
(service, method); and lazily resolving the registered full name — with
any fallback type, `Unknown` included — returns the cached entry, whose
call type is concrete. -/
theorem claim10_register_resolve_roundtrip (h : HandlerState)
    (server : String) (meth : GoMethodInfo) (codes : List String)
    (typ : String) (hs : '/' ∉ server.data) :
    (h.init server [meth] codes).methods ("/" ++ server ++ "/" ++ meth.name) =
      some { typ := grpcType meth.isClientStream meth.isServerStream,
             server := server, method := meth.name } ∧
    splitFullMethodName ("/" ++ server ++ "/" ++ meth.name) =
      (server, meth.name) ∧
    (resolveMethodInfo (h.init server [meth] codes).methods
        ("/" ++ server ++ "/" ++ meth.name) typ).1 =
      { typ := grpcType meth.isClientStream meth.isServerStream,
        server := server, method := meth.name } ∧
    (resolveMethodInfo (h.init server [meth] codes).methods
        ("/" ++ server ++ "/" ++ meth.name) typ).1.typ ≠ unknown := by
  have hm : (h.init server [meth] codes).methods
      ("/" ++ server ++ "/" ++ meth.name) =
      some { typ := grpcType meth.isClientStream meth.isServerStream,
             server := server, method := meth.name } := by
    rw [init_single, initMethod_methods, updateFn_self]
  have hres : (resolveMethodInfo (h.init server [meth] codes).methods
      ("/" ++ server ++ "/" ++ meth.name) typ).1 =
      { typ := grpcType meth.isClientStream meth.isServerStream,
        server := server, method := meth.name } := by
    simp [resolveMethodInfo, hm]
  refine ⟨hm, split_full_name server meth.name hs, hres, ?_⟩
  rw [hres]
  exact grpcType_ne_unknown _ _

theorem claim10_register_resolve_roundtrip_witness :
    (emptyHandler.init "svc" [sampleMeth] ["OK"]).methods
        ("/" ++ "svc" ++ "/" ++ sampleMeth.name) =
      some { typ := grpcType sampleMeth.isClientStream sampleMeth.isServerStream,
             server := "svc", method := sampleMeth.name } ∧
    splitFullMethodName ("/" ++ "svc" ++ "/" ++ sampleMeth.name) =
      ("svc", sampleMeth.name) ∧
    (resolveMethodInfo (emptyHandler.init "svc" [sampleMeth] ["OK"]).methods
        ("/" ++ "svc" ++ "/" ++ sampleMeth.name) unknown).1 =
      { typ := grpcType sampleMeth.isClientStream sampleMeth.isServerStream,
        server := "svc", method := sampleMeth.name } ∧
    (resolveMethodInfo (emptyHandler.init "svc" [sampleMeth] ["OK"]).methods
        ("/" ++ "svc" ++ "/" ++ sampleMeth.name) unknown).1.typ ≠ unknown :=
  claim10_register_resolve_roundtrip emptyHandler "svc" sampleMeth
    ["OK"] unknown (by decide)

theorem getOrInit_isSome {L V : Type} [DecidableEq L] (z : V)
    (m : L → Option V) (k l : L) (hl : (m l).isSome) :
    (getOrInit z m k l).isSome := by
  by_cases hk : l = k
  · subst hk; simp [getOrInit, updateFn]
  · simpa [getOrInit, updateFn, hk] using hl

theorem key_ne_of_name_ne (server n1 n2 : String) (h : n1 ≠ n2) :
    "/" ++ server ++ "/" ++ n1 ≠ "/" ++ server ++ "/" ++ n2 := by
  intro he
  apply h
  have hd := congrArg String.data he
  rw [full_name_data, full_name_data] at hd
  have h2 : server.data ++ '/' :: n1.data = server.data ++ '/' :: n2.data := by
    simpa using hd
  have h3 : n1.data = n2.data := by
    simpa using List.append_cancel_left h2
  obtain ⟨d1⟩ := n1
  obtain ⟨d2⟩ := n2
  cases h3
  rfl

theorem initCodes_id (t s m : String) :
    ∀ (codes : List String) (h : HandlerState),
    (∀ c ∈ codes, (h.reqsTotal (t, s, m, c)).isSome) →
    (∀ c ∈ codes, (h.latency (t, s, m, c)).isSome) →
    initCodes t s m codes h = h := by
  intro codes
  induction codes with
  | nil => intro h _ _; rfl
  | cons c cs ih =>
    intro h h1 h2
    have e1 : getOrInit 0 h.reqsTotal (t, s, m, c) = h.reqsTotal :=
      getOrInit_eq_of_isSome _ _ _ (h1 c (List.mem_cons_self c cs))
    have e2 : getOrInit (0, 0) h.latency (t, s, m, c) = h.latency :=
      getOrInit_eq_of_isSome _ _ _ (h2 c (List.mem_cons_self c cs))
    have hstep : ({ h with
        reqsTotal := getOrInit 0 h.reqsTotal (t, s, m, c),
        latency := getOrInit (0, 0) h.latency (t, s, m, c) } : HandlerState) = h := by
      rw [e1, e2]
    calc initCodes t s m (c :: cs) h
        = initCodes t s m cs { h with
            reqsTotal := getOrInit 0 h.reqsTotal (t, s, m, c),
            latency := getOrInit (0, 0) h.latency (t, s, m, c) } := rfl
      _ = initCodes t s m cs h := by rw [hstep]
      _ = h := ih h (fun x hx => h1 x (List.mem_cons_of_mem c hx))
            (fun x hx => h2 x (List.mem_cons_of_mem c hx))

theorem initFrames_id (t s m : String) :
    ∀ (fs : List String) (h : HandlerState),
    (∀ f ∈ fs, (h.sentBytes (t, s, m, f)).isSome) →
    (∀ f ∈ fs, (h.recvBytes (t, s, m, f)).isSome) →
    initFrames t s m fs h = h := by
  intro fs
  induction fs with
  | nil => intro h _ _; rfl
  | cons f fs ih =>
    intro h h1 h2
    have e1 : getOrInit (0, 0) h.sentBytes (t, s, m, f) = h.sentBytes :=
      getOrInit_eq_of_isSome _ _ _ (h1 f (List.mem_cons_self f fs))
    have e2 : getOrInit (0, 0) h.recvBytes (t, s, m, f) = h.recvBytes :=
      getOrInit_eq_of_isSome _ _ _ (h2 f (List.mem_cons_self f fs))
    have hstep : ({ h with
        sentBytes := getOrInit (0, 0) h.sentBytes (t, s, m, f),
        recvBytes := getOrInit (0, 0) h.recvBytes (t, s, m, f) } : HandlerState) = h := by
      rw [e1, e2]
    calc initFrames t s m (f :: fs) h
        = initFrames t s m fs { h with
            sentBytes := getOrInit (0, 0) h.sentBytes (t, s, m, f),
            recvBytes := getOrInit (0, 0) h.recvBytes (t, s, m, f) } := rfl
      _ = initFrames t s m fs h := by rw [hstep]
      _ = h := ih h (fun x hx => h1 x (List.mem_cons_of_mem f hx))
            (fun x hx => h2 x (List.mem_cons_of_mem f hx))

theorem initMethod_id (h : HandlerState) (server : String)
    (meth : GoMethodInfo) (codes : List String)
    (hready : MethodReady h server meth codes) : initMethod h server meth codes = h := by
  obtain ⟨hmeth, hpend, htot, hlat, hsent, hrecv⟩ := hready
  have e0 : updateFn h.methods ("/" ++ server ++ "/" ++ meth.name)
      { typ := grpcType meth.isClientStream meth.isServerStream,
        server := server, method := meth.name } = h.methods := by
    funext k
    by_cases hk : k = "/" ++ server ++ "/" ++ meth.name
    · subst hk; rw [updateFn_self, hmeth]
    · rw [updateFn_other _ _ _ _ hk]
  have e1 : getOrInit 0 h.reqsPending
      (grpcType meth.isClientStream meth.isServerStream, server, meth.name) =
      h.reqsPending :=
    getOrInit_eq_of_isSome _ _ _ hpend
  have hstep : ({ h with
      methods := updateFn h.methods ("/" ++ server ++ "/" ++ meth.name)
        { typ := grpcType meth.isClientStream meth.isServerStream,
          server := server, method := meth.name },
      reqsPending := getOrInit 0 h.reqsPending
        (grpcType meth.isClientStream meth.isServerStream, server, meth.name) } :
      HandlerState) = h := by
    rw [e0, e1]
  calc initMethod h server meth codes
      = initFrames (grpcType meth.isClientStream meth.isServerStream) server
          meth.name frames
          (initCodes (grpcType meth.isClientStream meth.isServerStream) server
            meth.name codes { h with
              methods := updateFn h.methods ("/" ++ server ++ "/" ++ meth.name)
                { typ := grpcType meth.isClientStream meth.isServerStream,
                  server := server, method := meth.name },
              reqsPending := getOrInit 0 h.reqsPending
                (grpcType meth.isClientStream meth.isServerStream, server,
                  meth.name) }) := rfl
    _ = initFrames (grpcType meth.isClientStream meth.isServerStream) server
          meth.name frames
          (initCodes (grpcType meth.isClientStream meth.isServerStream) server
            meth.name codes h) := by rw [hstep]
    _ = initFrames (grpcType meth.isClientStream meth.isServerStream) server
          meth.name frames h := by
          rw [initCodes_id _ _ _ codes h htot hlat]
    _ = h := initFrames_id _ _ _ frames h hsent hrecv

theorem init_cons (h : HandlerState) (server : String) (meth : GoMethodInfo)
    (meths : List GoMethodInfo) (codes : List String) :
    h.init server (meth :: meths) codes =
      (initMethod h server meth codes).init server meths codes := rfl

theorem initMethod_ready (h : HandlerState) (server : String)
    (meth : GoMethodInfo) (codes : List String) :
    MethodReady (initMethod h server meth codes) server meth codes := by
  refine ⟨?_, ?_, ?_, ?_, ?_, ?_⟩
  · rw [initMethod_methods, updateFn_self]
  · rw [initMethod_reqsPending]
    simp [getOrInit, updateFn]
  · intro c hc
    rw [initMethod_reqsTotal, if_pos ⟨rfl, rfl, rfl, hc⟩]
    rfl
  · intro c hc
    rw [initMethod_latency, if_pos ⟨rfl, rfl, rfl, hc⟩]
    rfl
  · intro f hf
    rw [initMethod_sentBytes, if_pos ⟨rfl, rfl, rfl, hf⟩]
    rfl
  · intro f hf
    rw [initMethod_recvBytes, if_pos ⟨rfl, rfl, rfl, hf⟩]
    rfl

theorem initMethod_preserves_ready (h : HandlerState) (server : String)
    (meth meth' : GoMethodInfo) (codes : List String)
    (hname : meth'.name ≠ meth.name)
    (hr : MethodReady h server meth codes) :
    MethodReady (initMethod h server meth' codes) server meth codes := by
  obtain ⟨hmeth, hpend, htot, hlat, hsent, hrecv⟩ := hr
  refine ⟨?_, ?_, ?_, ?_, ?_, ?_⟩
  · rw [initMethod_methods,
      updateFn_other _ _ _ _ (key_ne_of_name_ne server _ _ (Ne.symm hname)), hmeth]
  · rw [initMethod_reqsPending]
    exact getOrInit_isSome _ _ _ _ hpend
  · intro c hc
    rw [initMethod_reqsTotal]
    split
    · rfl
    · exact htot c hc
  · intro c hc
    rw [initMethod_latency]
    split
    · rfl
    · exact hlat c hc
  · intro f hf
    rw [initMethod_sentBytes]
    split
    · rfl
    · exact hsent f hf
  · intro f hf
    rw [initMethod_recvBytes]
    split
    · rfl
    · exact hrecv f hf

theorem init_preserves_ready (server : String) (meth : GoMethodInfo)
    (codes : List String) :
    ∀ (meths : List GoMethodInfo) (h : HandlerState),
    (∀ m' ∈ meths, m'.name ≠ meth.name) →
    MethodReady h server meth codes →
    MethodReady (h.init server meths codes) server meth codes := by
  intro meths
  induction meths with
  | nil => intro h _ hr; exact hr
  | cons x xs ih =>
    intro h hnames hr
    rw [init_cons]
    exact ih _ (fun m' hm' => hnames m' (List.mem_cons_of_mem x hm'))
      (initMethod_preserves_ready h server meth x codes
        (hnames x (List.mem_cons_self x xs)) hr)

theorem init_ready_all (server : String) (codes : List String) :
    ∀ (meths : List GoMethodInfo) (h : HandlerState),
    (meths.map GoMethodInfo.name).Nodup →
    ∀ m ∈ meths, MethodReady (h.init server meths codes) server m codes := by
  intro meths
  induction meths with
  | nil => intro h _ m hm; cases hm
  | cons x xs ih =>
    intro h hnd m hm
    rw [List.map_cons, List.nodup_cons] at hnd
    rw [init_cons]
    rcases List.mem_cons.mp hm with rfl | hm2
    · refine init_preserves_ready server m codes xs _ ?_
        (initMethod_ready h server m codes)
      intro m' hm' he
      exact hnd.1 (he ▸ List.mem_map_of_mem GoMethodInfo.name hm')
    · exact ih _ hnd.2 m hm2

theorem init_id (server : String) (codes : List String) :
    ∀ (meths : List GoMethodInfo) (h : HandlerState),
    (∀ m ∈ meths, MethodReady h server m codes) →
    h.init server meths codes = h := by
  intro meths
  induction meths with
  | nil => intro h _; rfl
  | cons x xs ih =>
    intro h hall
    rw [init_cons, initMethod_id h server x codes (hall x (List.mem_cons_self x xs))]
    exact ih h (fun m hm => hall m (List.mem_cons_of_mem x hm))

theorem initMethod_seriesPreserved (h : HandlerState) (server : String)
    (meth : GoMethodInfo) (codes : List String) :
    SeriesPreserved h (initMethod h server meth codes) := by
  refine ⟨?_, ?_, ?_, ?_, ?_⟩
  · intro l v hv
    rw [initMethod_reqsPending]
    exact getOrInit_of_some _ _ _ _ _ hv
  · intro l v hv
    obtain ⟨a, b, c, d⟩ := l
    rw [initMethod_reqsTotal]
    split
    · rw [hv]; rfl
    · exact hv
  · intro l v hv
    obtain ⟨a, b, c, d⟩ := l
    rw [initMethod_latency]
    split
    · rw [hv]; rfl
    · exact hv
  · intro l v hv
    obtain ⟨a, b, c, d⟩ := l
    rw [initMethod_sentBytes]
    split
    · rw [hv]; rfl
    · exact hv
  · intro l v hv
    obtain ⟨a, b, c, d⟩ := l
    rw [initMethod_recvBytes]
    split
    · rw [hv]; rfl
    · exact hv

theorem seriesPreserved_trans (h1 h2 h3 : HandlerState)
    (a : SeriesPreserved h1 h2) (b : SeriesPreserved h2 h3) :
    SeriesPreserved h1 h3 :=
  ⟨fun l v hv => b.1 l v (a.1 l v hv),
   fun l v hv => b.2.1 l v (a.2.1 l v hv),
   fun l v hv => b.2.2.1 l v (a.2.2.1 l v hv),
   fun l v hv => b.2.2.2.1 l v (a.2.2.2.1 l v hv),
   fun l v hv => b.2.2.2.2 l v (a.2.2.2.2 l v hv)⟩

theorem init_seriesPreserved (server : String) (codes : List String) :
    ∀ (meths : List GoMethodInfo) (h : HandlerState),
    SeriesPreserved h (h.init server meths codes) := by
  intro meths
  induction meths with
  | nil =>
    intro h
    exact ⟨fun l v hv => hv, fun l v hv => hv, fun l v hv => hv,
      fun l v hv => hv, fun l v hv => hv⟩
  | cons x xs ih =>
    intro h
    rw [init_cons]
    exact seriesPreserved_trans _ _ _
      (initMethod_seriesPreserved h server x codes) (ih _)

/-- C6: warm-up registration is idempotent — for a service/method set
(method names distinct, as in a service descriptor) registering twice
with the same codes leaves exactly the state of registering once — and
registration never changes an existing series' value: series are only
created at zero when absent. -/
theorem claim6_warmup_idempotent (h : HandlerState) (server : String)
    (meths : List GoMethodInfo) (codes : List String)
    (hnd : (meths.map GoMethodInfo.name).Nodup) :
    (h.init server meths codes).init server meths codes =
      h.init server meths codes ∧
    SeriesPreserved h (h.init server meths codes) :=
  ⟨init_id server codes meths _ (init_ready_all server codes meths h hnd),
   init_seriesPreserved server codes meths h⟩

theorem claim6_warmup_idempotent_witness :
    ((emptyHandler.init "svc" [sampleMeth] ["OK"]).init "svc" [sampleMeth]
        ["OK"] = emptyHandler.init "svc" [sampleMeth] ["OK"]) ∧
    SeriesPreserved emptyHandler (emptyHandler.init "svc" [sampleMeth] ["OK"]) :=
  claim6_warmup_idempotent emptyHandler "svc" [sampleMeth] ["OK"] (by decide)

/-- C1: evaluation of the builder at the failing input — the default
construction (no options, so every observer is enabled and the byte
observers have nil buckets). The latency observer is seeded with
`DefaultLatencyBuckets` and becomes a bucketed histogram, but the
sent-bytes and recv-bytes observers fall through to the sum+count
strategy: `DefaultBytesBuckets` is declared in the source yet never
applied, contradicting the package documentation that lists
`recv_bytes`/`sent_bytes` as histograms. -/
theorem claim1_default_byte_observer_eval :
    (newMetrics []).latency = ObserverImpl.histogram DefaultLatencyBuckets ∧
    (newMetrics []).recvBytes = ObserverImpl.sumCount ∧
    (newMetrics []).sentBytes = ObserverImpl.sumCount ∧
    newRecvBytes { disable := false, buckets := [] } ≠
      ObserverImpl.histogram DefaultBytesBuckets ∧
    newSentBytes { disable := false, buckets := [] } ≠
      ObserverImpl.histogram DefaultBytesBuckets := by
  refine ⟨rfl, rfl, rfl, ?_, ?_⟩ <;> decide

end Grpcprom
